import Mathlib

/-!
Verification of the goose chat-gateway, CLI provider driver, and static-analysis
subsystems, as a shallow embedding of the Rust sources:

  - crates/goose/src/gateway/handler.rs   (message handler, relay loop)
  - crates/goose/src/gateway/pairing.rs   (pairing store, pending codes)
  - crates/goose/src/agents/platform_extensions/analyze/graph.rs (call graph)
  - crates/goose/src/providers/claude_code.rs (CLI provider driver)

Pure functions are translated to Lean functions; the stateful driver protocol is
translated to explicit state passing over the parsed NDJSON lines the child
produces, and the permission-waiter lifecycle to a small step machine.
-/

namespace Gateway

/-- The PairingState enum from gateway/mod.rs. -/
inductive PairingState
  | unpaired
  | pendingCode (code : String) (expiresAt : Int)
  | paired (sessionId : String) (pairedAt : Int)
  deriving DecidableEq, Repr

/-- The OutgoingMessage enum from gateway/mod.rs. -/
inductive OutgoingMessage
  | text (body : String)
  | typing
  deriving DecidableEq, Repr

/-- The 32-character ambiguity-free pairing-code alphabet from handler.rs and
pairing.rs. -/
def pairingAlphabet : String := "ABCDEFGHJKLMNPQRSTUVWXYZ23456789"

/-- Rust str::trim: drop leading and trailing whitespace characters. Written
over the character list (Lean's built-in String.trim is not kernel-reducible);
the whitespace test matches Rust on the ASCII inputs the handler sees. -/
def rustTrim (s : String) : String :=
  String.mk
    (((s.data.dropWhile Char.isWhitespace).reverse.dropWhile
        Char.isWhitespace).reverse)

/-- The normalisation performed inside try_consume_code:
text.to_uppercase().replace two chars, dash and space, by the empty string.
Written char-wise; Rust to_uppercase agrees with the ASCII per-char fold on the
ASCII inputs this code compares against the ASCII alphabet. -/
def normalizeCode (text : String) : String :=
  String.mk ((text.data.map Char.toUpper).filter (fun c => !(c == '-' || c == ' ')))

/-- Rust str::eq_ignore_ascii_case: byte-wise comparison after ASCII-only case
folding, which per character is equality after the ASCII uppercase fold (Lean's
Char.toUpper folds exactly the ASCII range). -/
def eqIgnoreAsciiCase (a b : String) : Bool :=
  a.data.map Char.toUpper == b.data.map Char.toUpper

/-- try_consume_code from handler.rs. The pairing store lookup
(consume_pending_code) is passed in as the function consume; the caller passes
the trimmed message text. Rust str::len is the UTF-8 byte length, and the
char-containment test on the alphabet literal is list membership. -/
def tryConsumeCode (consume : String → Option String) (text : String) : Option String :=
  let normalized := normalizeCode text
  if normalized.utf8ByteSize == 6
      && normalized.data.all (fun c => pairingAlphabet.data.contains c) then
    consume normalized
  else
    none

/-- The user-visible effect chosen by one handle_message dispatch. -/
inductive HandlerAction
  | completePairing
  | sendText (body : String)
  | relay (sessionId : String)
  deriving DecidableEq, Repr

/-- handle_message from handler.rs as a pure transition on the pair of the
current pairing state and the incoming text. consume stands for
pairing_store.consume_pending_code; newSessionId is the id of the session that
complete_pairing creates (external to the state machine). Returns the action
taken and the pairing state written back to the store. -/
def handleMessage (gatewayType : String) (consume : String → Option String)
    (newSessionId : String) (state : PairingState) (text : String) (now : Int) :
    HandlerAction × PairingState :=
  match state with
  | .unpaired =>
    match tryConsumeCode consume (rustTrim text) with
    | some gt =>
      if gt = gatewayType then
        (.completePairing, .paired newSessionId now)
      else
        (.sendText "⚠️ That code is for a different gateway.", .unpaired)
    | none =>
      (.sendText "Welcome! Enter your pairing code to connect to goose.", .unpaired)
  | .pendingCode code expiresAt =>
    if now > expiresAt then
      (.sendText "Your pairing code expired. Please request a new one.", .unpaired)
    else if eqIgnoreAsciiCase (rustTrim text) code then
      (.completePairing, .paired newSessionId now)
    else
      (.sendText "Invalid code. Please try again.", .pendingCode code expiresAt)
  | .paired sessionId pairedAt =>
    (.relay sessionId, .paired sessionId pairedAt)

/-- One entry of the pending-code side table (StoredPendingCode in pairing.rs). -/
structure StoredPendingCode where
  code : String
  gatewayType : String
  expiresAt : Int
  deriving DecidableEq, Repr

/-- consume_pending_code from pairing.rs: find the position of the first entry
with this code, remove it from the table regardless of expiry, and return its
gateway_type only if now is not past expires_at. The Rust position-then-remove
pair is translated as a remove-first recursion. Returns the result and the new
table. -/
def consumePendingCode (now : Int) (code : String) :
    List StoredPendingCode → Option String × List StoredPendingCode
  | [] => (none, [])
  | c :: rest =>
    if c.code == code then
      (if now > c.expiresAt then none else some c.gatewayType, rest)
    else
      let r := consumePendingCode now code rest
      (r.1, c :: r.2)

/-- store_pending_code from pairing.rs: drop any entry with the same code, then
append the fresh one. -/
def storePendingCode (code gatewayType : String) (expiresAt : Int)
    (codes : List StoredPendingCode) : List StoredPendingCode :=
  codes.filter (fun c => !(c.code == code)) ++ [⟨code, gatewayType, expiresAt⟩]

/-- One content item of an assistant message, as relay_to_session inspects it:
text deltas, tool requests (whose tool_call may be Ok or Err), tool responses,
and anything else. -/
inductive MessageItem
  | text (s : String)
  | toolRequest (callOk : Bool)
  | toolResponse
  | otherContent
  deriving DecidableEq, Repr

/-- The message role, from rmcp. -/
inductive Role
  | user
  | assistant
  deriving DecidableEq, Repr

/-- One event of the agent reply stream as consumed by relay_to_session. The
error constructor is the Err arm of the Result the stream yields. -/
inductive AgentEvent
  | message (role : Role) (content : List MessageItem)
  | mcpNotification
  | modelChange
  | historyReplaced
  | error (e : String)
  deriving DecidableEq, Repr

/-- The mutable loop state of relay_to_session: the buffered pending_text, the
sent_any flag, and the outbound messages sent so far (in order). -/
structure RelayAcc where
  pending : String
  sentAny : Bool
  out : List OutgoingMessage
  deriving DecidableEq, Repr

/-- Processing of one assistant content item inside the relay loop:
text appends to pending_text; a tool request first flushes pending_text as a
Text message (setting sent_any) and then, when its tool_call is Ok, sends one
Typing; tool responses and other content only debug-log. -/
def relayStep (acc : RelayAcc) (item : MessageItem) : RelayAcc :=
  match item with
  | .text s =>
    if s ≠ "" then { acc with pending := acc.pending ++ s } else acc
  | .toolRequest callOk =>
    let acc1 :=
      if acc.pending ≠ "" then
        { acc with pending := "", sentAny := true,
                   out := acc.out ++ [OutgoingMessage.text acc.pending] }
      else acc
    if callOk then { acc1 with out := acc1.out ++ [OutgoingMessage.typing] } else acc1
  | .toolResponse => acc
  | .otherContent => acc

/-- One stream event applied to the relay state: only assistant messages touch
the buffer; user-role messages and the non-message events only debug-log. -/
def relayEventStep (acc : RelayAcc) (ev : AgentEvent) : RelayAcc :=
  match ev with
  | .message r content => if r = .assistant then content.foldl relayStep acc else acc
  | _ => acc

/-- The sends performed after the stream ends (handler.rs, end of
relay_to_session): flush a non-empty pending_text as one final Text, else send
the literal no-response marker when nothing was ever sent. -/
def streamEndSends (acc : RelayAcc) : List OutgoingMessage :=
  if acc.pending ≠ "" then [OutgoingMessage.text acc.pending]
  else if !acc.sentAny then [OutgoingMessage.text "(No response)"]
  else []

/-- The relay loop over the stream events: an Err event stops consumption and
sends a user-visible agent error; an exhausted stream performs the end-of-stream
sends. Returns all outbound messages from the loop onward. -/
def relayEvents : RelayAcc → List AgentEvent → List OutgoingMessage
  | acc, [] => acc.out ++ streamEndSends acc
  | acc, ev :: rest =>
    match ev with
    | .error e => acc.out ++ [OutgoingMessage.text ("⚠️ Agent error: " ++ e)]
    | _ => relayEvents (relayEventStep acc ev) rest

/-- relay_to_session from handler.rs, reduced to its outbound-message behaviour:
one immediate Typing, then the stream-consumption loop. (The periodic typing
re-emitter runs on wall-clock time and is not part of this embedding.) -/
def relayToSession (events : List AgentEvent) : List OutgoingMessage :=
  OutgoingMessage.typing :: relayEvents ⟨"", false, []⟩ events

/-- The fold of the whole event list through the relay loop state, used to state
properties of relayEvents on error-free streams. -/
def relayFold (acc : RelayAcc) (events : List AgentEvent) : RelayAcc :=
  events.foldl relayEventStep acc

/-- Whether a stream event is the Err arm. -/
def AgentEvent.isError : AgentEvent → Bool
  | .error _ => true
  | _ => false

end Gateway

namespace Analyze

/-- One queue entry of bfs_chains (graph.rs) processed to completion. fuel is
depth minus the entry's hop count d; at fuel 0 (d has reached depth) the chain
is emitted. Otherwise the neighbors of the tip that do not already occur in the
chain are appended and recursed on; when there are none (no outgoing entry, or
every neighbor already visited) the chain is emitted as-is. The Rust BFS queue
interleaves entries; processing each entry to completion yields the same
chains, only in a different order. -/
def chainsFrom {α : Type} [DecidableEq α] (edges : α → List α) :
    Nat → List α → List (List α)
  | 0, path => [path]
  | fuel + 1, path =>
    match path.getLast? with
    | none => []
    | some tip =>
      let ext := (edges tip).filter (fun n => !path.contains n)
      if ext.isEmpty then [path]
      else ext.flatMap (fun n => chainsFrom edges fuel (path ++ [n]))

/-- bfs_chains from graph.rs. Edge sets are represented as neighbor lists (the
empty list standing for an absent adjacency entry). Each start node is seeded
with the two-node chain made of the start and each of its neighbors, at hop
count 1 — note the seed step does not exclude the neighbor being the start
itself. -/
def bfsChains {α : Type} [DecidableEq α] (edges : α → List α) (starts : List α)
    (depth : Nat) : List (List α) :=
  if depth = 0 then []
  else starts.flatMap (fun s =>
    (edges s).flatMap (fun n => chainsFrom edges (depth - 1) [s, n]))

/-- Rust slice::binary_search on a sorted list: Except.ok with an index of the
target when present, else Except.error with the insertion point (the number of
elements below the target). On the strictly sorted definition-line lists built
by CallGraph::build this is exactly the deterministic Rust result. -/
def binarySearch (xs : List Nat) (target : Nat) : Except Nat Nat :=
  if target ∈ xs then .ok (xs.indexOf target)
  else .error (xs.countP (fun x => decide (x < target)))

/-- The line-selection core of resolve_caller_key (graph.rs): an exact match
uses its own line; insertion point 0 means the call precedes every definition
(resolve to none); otherwise take the definition just below the insertion
point, the greatest line at most the call line. -/
def resolveCallerLine (lines : List Nat) (callLine : Nat) : Option Nat :=
  match binarySearch lines callLine with
  | .ok idx => lines.get? idx
  | .error 0 => none
  | .error (idx + 1) => lines.get? idx

/-- resolve_caller_key from graph.rs: defLines is the (path, name)-indexed table
of sorted definition lines; absence of the caller name in this file resolves to
none. -/
def resolveCallerKey (path caller : String) (defLines : Option (List Nat))
    (callLine : Nat) : Option (String × String × Nat) :=
  match defLines with
  | some lines => (resolveCallerLine lines callLine).map (fun l => (path, caller, l))
  | none => none

/-- The caller key recorded by CallGraph::build for one call: the resolved
caller, or the per-file module pseudo-node on fallback. -/
def buildCallerKey (path caller : String) (defLines : Option (List Nat))
    (callLine : Nat) : String × String × Nat :=
  (resolveCallerKey path caller defLines callLine).getD (path, "<module>", 0)

end Analyze

namespace ClaudeCode

/-- A small JSON value type for the payloads the driver inspects. -/
inductive Json
  | str (s : String)
  | num (n : Int)
  | arr (xs : List Json)
  | obj (fields : List (String × Json))
  | null

/-- serde_json Value::get on an object. -/
def Json.get : Json → String → Option Json
  | .obj fields, key => (fields.find? (fun f => f.1 == key)).map (fun f => f.2)
  | _, _ => none

/-- serde_json Value::as_array. -/
def Json.asArray : Json → Option (List Json)
  | .arr xs => some xs
  | _ => none

/-- serde_json Value::as_str. -/
def Json.asStr : Json → Option String
  | .str s => some s
  | _ => none

/-- The two provider error kinds this driver produces. -/
inductive ProviderError
  | requestFailed (msg : String)
  | contextLengthExceeded (msg : String)
  deriving DecidableEq, Repr

/-- extract_model_aliases from claude_code.rs: pull the value strings out of the
models array of an initialize response, defaulting to the empty list. -/
def extractModelAliases (response : Option Json) : List String :=
  ((response.bind (fun v => (v.get "models").bind Json.asArray)).map
    (fun arr => arr.filterMap (fun m => (m.get "value").bind Json.asStr))).getD []

/-- The token counts that extract_usage_tokens (cli_common.rs, not among the
sources here) reads from a usage object. Modelled from the spec: accumulate
message_start input_tokens and message_delta output_tokens; lines carry the
already-extracted optional counts. -/
structure UsageTokens where
  inputTokens : Option Int
  outputTokens : Option Int
  deriving DecidableEq, Repr

/-- One parsed stream_event body, carrying exactly the fields the stream loop
reads from the event JSON. -/
inductive EventIn
  | contentBlockDelta (deltaType : Option String) (text : Option String)
  | messageStart (usage : Option UsageTokens)
  | messageDelta (usage : Option UsageTokens)
  | otherEvent
  deriving DecidableEq, Repr

/-- An incoming control_response body (IncomingControlResponse in
claude_code.rs), tagged success or error by subtype. -/
inductive CtrlRespIn
  | success (requestId : String) (response : Option Json)
  | error (requestId : String) (error : String)

/-- One NDJSON line read from the child, already parsed the way the driver
parses it (by its type field). controlResponse none stands for a
control_response line whose body does not deserialize as
IncomingControlResponse; invalid stands for an empty or non-JSON line, skipped
everywhere. -/
inductive Line
  | streamEvent (event : Option EventIn)
  | result (usage : Option UsageTokens)
  | errorLine (error : Option String)
  | controlResponse (resp : Option CtrlRespIn)
  | canUseTool (requestId : String) (toolName : String) (input : Json)
      (toolUseId : String)
  | system (model : Option String)
  | otherType
  | invalid

/-- Whether the drain loop treats a line as the turn terminator: a line whose
type field is result or error. -/
def Line.isDrainTerminator : Line → Bool
  | .result _ => true
  | .errorLine _ => true
  | _ => false

/-- The body of an outgoing control request (ControlRequestBody). -/
inductive CtrlReqOut
  | Initialize
  | setModel (model : String)
  deriving DecidableEq, Repr

/-- ControlRequestBody::label. -/
def CtrlReqOut.label : CtrlReqOut → String
  | .Initialize => "initialize"
  | .setModel _ => "set_model"

/-- The permission response bodies (PermissionResponse in claude_code.rs). -/
inductive PermissionResponse
  | allow (updatedInput : Json) (toolUseId : String)
  | deny (message : String)

/-- One NDJSON line written to the child's stdin. The user-turn line is
identified by its session id; its content blocks do not matter to any claim. -/
inductive OutLine
  | controlRequest (requestId : String) (body : CtrlReqOut)
  | controlResponse (requestId : String) (response : PermissionResponse)
  | userTurn (sessionId : String)

/-- The mutable fields of CliProcess that the protocol logic reads and
writes. -/
structure CliState where
  currentModel : String
  logModelUpdate : Bool
  nextRequestId : Nat
  needsDrain : Bool
  deriving DecidableEq, Repr

/-- CliProcess::next_request_id formatting. -/
def requestIdString (n : Nat) : String := "req_" ++ toString n

/-- The read loop of exchange_control: scan incoming lines for a control
response whose request_id matches; end of input is the EOF error; a matching
error response is a request failure. Returns the response payload and the
remaining input. -/
def awaitControlResponse (label requestId : String) :
    List Line → Except ProviderError (Option Json × List Line)
  | [] =>
    .error (.requestFailed
      ("CLI process terminated while waiting for " ++ label ++ " response"))
  | l :: rest =>
    match l with
    | .controlResponse (some (.success rid resp)) =>
      if rid = requestId then .ok (resp, rest)
      else awaitControlResponse label requestId rest
    | .controlResponse (some (.error rid err)) =>
      if rid = requestId then
        .error (.requestFailed (label ++ " failed: " ++ err))
      else awaitControlResponse label requestId rest
    | _ => awaitControlResponse label requestId rest

/-- exchange_control from claude_code.rs: write the request line, then await
the matching response. The written lines are returned alongside the result
(stdin write errors and serialization are not failure sources in this model;
serialization of these bodies cannot fail). -/
def exchangeControl (requestId : String) (body : CtrlReqOut) (input : List Line) :
    List OutLine × Except ProviderError (Option Json × List Line) :=
  ([.controlRequest requestId body], awaitControlResponse body.label requestId input)

/-- Outcome of send_set_model: the updated CliProcess state plus either the
remaining input or the propagated error. -/
inductive SetModelOut
  | ok (st : CliState) (rest : List Line)
  | err (st : CliState) (e : ProviderError)

/-- send_set_model from claude_code.rs: a no-op when the model equals
current_model; otherwise one set_model control request (consuming a request id)
awaited to success, after which current_model is updated and the next system
line logs the resolution. -/
def sendSetModel (st : CliState) (model : String) (input : List Line) :
    List OutLine × SetModelOut :=
  if model = st.currentModel then ([], .ok st input)
  else
    let rid := requestIdString st.nextRequestId
    let st1 : CliState := { st with nextRequestId := st.nextRequestId + 1 }
    match exchangeControl rid (.setModel model) input with
    | (w, .ok (_resp, rest)) =>
      (w, .ok { st1 with currentModel := model, logModelUpdate := true } rest)
    | (w, .error e) => (w, .err st1 e)

/-- How reading from the child ends once the supplied lines run out, as the
drain loop observes it: end-of-file (read_line returns zero bytes), a read
error, or the 30-second drain timeout firing while the loop is still waiting
for the next line. -/
inductive ReadEnd
  | eof
  | readErr
  | timeout
  deriving DecidableEq, Repr

/-- Scan the drain window for a terminator line; some gives the input remaining
after consuming it. -/
def drainScan : List Line → Option (List Line)
  | [] => none
  | l :: rest => if l.isDrainTerminator then some rest else drainScan rest

/-- drain_pending_response from claude_code.rs. window holds the lines the
child produces before the 30-second mark and windowEnd what the reader observes
after them; rest is the input beyond the drain. With needs_drain clear the
drain returns immediately. A terminator (or EOF / read error) completes the
drain and clears needs_drain; the timeout leaves needs_drain set so the next
call retries, and is not reported as an error. Returns the state and the
remaining input. -/
def drainPendingResponse (st : CliState) (window : List Line) (windowEnd : ReadEnd)
    (rest : List Line) : CliState × List Line :=
  if st.needsDrain then
    match drainScan window with
    | some tail => ({ st with needsDrain := false }, tail ++ rest)
    | none =>
      match windowEnd with
      | .timeout => (st, rest)
      | _ => ({ st with needsDrain := false }, rest)
  else (st, window ++ rest)

/-- The pre-loop cleanup in stream: each stale waiter of pending_confirmations
is dropped and a synthetic deny control_response is written for it. -/
def cleanupPendingConfirmations (pending : List String) : List OutLine :=
  pending.map (fun rid => .controlResponse rid (.deny "Stream cancelled"))

/-- What the part of stream before the read loop produced. -/
structure Prologue where
  state : CliState
  writes : List OutLine
  error : Option ProviderError
  userTurnWritten : Bool
  rest : List Line

/-- The part of stream (claude_code.rs) between acquiring the process lock and
entering the read loop: clean up stale permission waiters, drain a cancelled
previous turn, send_set_model, then write the user-turn NDJSON line and set
needs_drain before reading any output. -/
def streamPrologue (st : CliState) (pending : List String) (sessionId model : String)
    (window : List Line) (windowEnd : ReadEnd) (rest : List Line) : Prologue :=
  let cleanupWrites := cleanupPendingConfirmations pending
  let drained := drainPendingResponse st window windowEnd rest
  match sendSetModel drained.1 model drained.2 with
  | (w, .ok st2 input2) =>
    { state := { st2 with needsDrain := true }
      writes := cleanupWrites ++ w ++ [.userTurn sessionId]
      error := none
      userTurnWritten := true
      rest := input2 }
  | (w, .err st2 e) =>
    { state := st2
      writes := cleanupWrites ++ w
      error := some e
      userTurnWritten := false
      rest := [] }

/-- The Permission variants the confirmation carries (permission crate). -/
inductive Permission
  | alwaysAllow
  | allowOnce
  | denyOnce
  | cancel
  deriving DecidableEq, Repr

/-- What the stream loop yields to its consumer: the assistant text deltas,
action-required permission prompts, and the single final usage entry. -/
inductive StreamYield
  | textDelta (text : String)
  | actionRequired (requestId : String) (toolName : String)
  | finalUsage (model : String) (usage : UsageTokens)

/-- How the main read loop's input ends after the listed lines: EOF or a read
error (the loop has no timeout). -/
inductive LoopEnd
  | eof
  | readErr
  deriving DecidableEq, Repr

/-- The outcome of the stream read loop plus the post-loop epilogue. -/
structure LoopResult where
  state : CliState
  yields : List StreamYield
  writes : List OutLine
  error : Option ProviderError

/-- Prepend one yielded item. -/
def LoopResult.withYield (y : StreamYield) (r : LoopResult) : LoopResult :=
  { r with yields := y :: r.yields }

/-- Prepend written lines. -/
def LoopResult.withWrites (w : List OutLine) (r : LoopResult) : LoopResult :=
  { r with writes := w ++ r.writes }

/-- error_from_event (cli_common.rs, not among the sources here). Modelled from
the spec: an error event whose payload matches known context-length phrases is
ContextLengthExceeded, any other payload a generic request failure naming the
source; the repository tests show a missing error field is also a generic
failure. The exact phrase test is abstracted as containing the word
"context". -/
def errorFromEvent (source : String) (err : Option String) : ProviderError :=
  match err with
  | some msg =>
    if (msg.splitOn "context").length > 1 then .contextLengthExceeded msg
    else .requestFailed (source ++ " error: " ++ msg)
  | none => .requestFailed (source ++ " error")

/-- Folding of a message_start or message_delta usage payload into the
accumulator, as the stream loop does it (only the present side overwrites). -/
def foldStartUsage (acc : UsageTokens) (usage : Option UsageTokens) : UsageTokens :=
  match usage with
  | some u =>
    match u.inputTokens with
    | some i => { acc with inputTokens := some i }
    | none => acc
  | none => acc

/-- Counterpart of foldStartUsage for message_delta output tokens. -/
def foldDeltaUsage (acc : UsageTokens) (usage : Option UsageTokens) : UsageTokens :=
  match usage with
  | some u =>
    match u.outputTokens with
    | some o => { acc with outputTokens := some o }
    | none => acc
  | none => acc

/-- The read loop of stream (claude_code.rs) over the lines of one turn,
followed by the epilogue that surfaces a stream error or yields the final
usage entry. confirm is the answer the permission waiter for a request id
eventually receives; none models the reply channel being dropped, which the
loop maps to Cancel and hence a deny. The terminator lines clear needs_drain;
EOF and read errors also clear it and surface request-failed without a final
usage entry. (The pending_confirmations map traffic of this loop is covered by
the PermMachine below.) -/
def streamLoop (confirm : String → Option Permission) (modelName : String) :
    CliState → UsageTokens → List Line → LoopEnd → LoopResult
  | st, _acc, [], .eof =>
    { state := { st with needsDrain := false }
      yields := []
      writes := []
      error := some (.requestFailed "Claude CLI process terminated unexpectedly") }
  | st, _acc, [], .readErr =>
    { state := { st with needsDrain := false }
      yields := []
      writes := []
      error := some (.requestFailed "Failed to read streaming output") }
  | st, acc, l :: rest, e =>
    match l with
    | .invalid => streamLoop confirm modelName st acc rest e
    | .streamEvent ev =>
      match ev with
      | some (.contentBlockDelta deltaType text) =>
        if deltaType = some "text_delta" then
          match text with
          | some t =>
            (streamLoop confirm modelName st acc rest e).withYield (.textDelta t)
          | none => streamLoop confirm modelName st acc rest e
        else streamLoop confirm modelName st acc rest e
      | some (.messageStart usage) =>
        streamLoop confirm modelName st (foldStartUsage acc usage) rest e
      | some (.messageDelta usage) =>
        streamLoop confirm modelName st (foldDeltaUsage acc usage) rest e
      | some .otherEvent => streamLoop confirm modelName st acc rest e
      | none => streamLoop confirm modelName st acc rest e
    | .result usage =>
      let acc1 :=
        match usage with
        | some u =>
          UsageTokens.mk (u.inputTokens.or acc.inputTokens)
            (u.outputTokens.or acc.outputTokens)
        | none => acc
      { state := { st with needsDrain := false }
        yields := [.finalUsage modelName acc1]
        writes := []
        error := none }
    | .errorLine err =>
      { state := { st with needsDrain := false }
        yields := []
        writes := []
        error := some (errorFromEvent "Claude CLI" err) }
    | .canUseTool rid toolName input toolUseId =>
      let perm := (confirm rid).getD .cancel
      let resp : PermissionResponse :=
        match perm with
        | .alwaysAllow => .allow input toolUseId
        | .allowOnce => .allow input toolUseId
        | _ => .deny "User denied the tool call"
      ((streamLoop confirm modelName st acc rest e).withYield
          (.actionRequired rid toolName)).withWrites [.controlResponse rid resp]
    | .system _resolved =>
      if st.logModelUpdate then
        streamLoop confirm modelName { st with logModelUpdate := false } acc rest e
      else streamLoop confirm modelName st acc rest e
    | .controlResponse _ => streamLoop confirm modelName st acc rest e
    | .otherType => streamLoop confirm modelName st acc rest e

/-- fetch_supported_models from claude_code.rs. spawn is the outcome of
spawning the short-lived listing child: the spawn error message, or the lines
the child produces on stdout (build_stream_json_command pipes stdin and stdout,
so a successful spawn always provides both). The initialize exchange result is
demoted to an Option (Result::ok().flatten()), so every post-spawn failure
yields Ok with the empty model list. -/
def fetchSupportedModels (spawn : Except String (List Line)) :
    Except ProviderError (List String) :=
  match spawn with
  | .error e =>
    .error (.requestFailed ("Failed to spawn CLI for model listing: " ++ e))
  | .ok output =>
    let exchanged := (exchangeControl "model_list" .Initialize output).2
    .ok (extractModelAliases ((exchanged.toOption.map Prod.fst).bind id))

/-- State of the permission-waiter protocol across stream turns, instrumented
for observation. pending holds the keys of the pending_confirmations map;
aliveWaiters the requests whose in-stream continuation (parked at the oneshot
await) can still be polled; responses the request ids for which a
control_response has been written to the child (most recent first); reads the
can_use_tool request ids read from the child. lostConfirms is ghost
instrumentation recording requests whose confirmation arrived after the stream
consumer was dropped: their waiter entry is removed and the answer sent into a
dead channel, so no response line is ever written for them. -/
structure PermState where
  pending : List String
  aliveWaiters : List String
  responses : List String
  reads : List String
  lostConfirms : List String
  deriving DecidableEq, Repr

/-- The observable transitions of the permission-waiter protocol, each
traceable to claude_code.rs:
readCanUseTool — the stream loop reads a can_use_tool control request, inserts
the oneshot sender into pending_confirmations, yields the action-required
message, and parks at the receiver await;
confirm — handle_permission_confirmation removes the map entry and sends the
answer; when the stream is still being polled its waiter resumes and writes the
permission control_response (modelled as completing with the confirmation);
when the stream consumer was already dropped the send lands in a dead channel;
dropStream — the consumer drops the stream mid-turn, so no parked waiter
continuation ever runs again;
nextStreamCleanup — the next stream call's pre-loop cleanup drains
pending_confirmations, writing a synthetic deny for every remaining entry. -/
inductive PermEvent
  | readCanUseTool (rid : String)
  | confirm (rid : String)
  | dropStream
  | nextStreamCleanup
  deriving DecidableEq, Repr

/-- One transition of the permission-waiter protocol. -/
def permStep (s : PermState) (e : PermEvent) : PermState :=
  match e with
  | .readCanUseTool rid =>
    { s with pending := rid :: s.pending
             aliveWaiters := rid :: s.aliveWaiters
             reads := rid :: s.reads }
  | .confirm rid =>
    if rid ∈ s.pending then
      if rid ∈ s.aliveWaiters then
        { s with pending := s.pending.erase rid
                 aliveWaiters := s.aliveWaiters.erase rid
                 responses := rid :: s.responses }
      else
        { s with pending := s.pending.erase rid
                 lostConfirms := rid :: s.lostConfirms }
    else s
  | .dropStream => { s with aliveWaiters := [] }
  | .nextStreamCleanup =>
    { s with responses := s.pending ++ s.responses, pending := [] }

/-- The empty protocol state a fresh provider starts from. -/
def permInit : PermState := ⟨[], [], [], [], []⟩

/-- Run a trace of permission-protocol events. -/
def permTrace (events : List PermEvent) : PermState :=
  events.foldl permStep permInit

/-- The request ids of the readCanUseTool events of a trace. -/
def readRids : List PermEvent → List String
  | [] => []
  | .readCanUseTool rid :: rest => rid :: readRids rest
  | _ :: rest => readRids rest

/-- Proof-side invariant of the permission-waiter protocol: the waiter map has
no duplicate keys, every request read so far is accounted for by exactly one of
a written response, a live map entry, or a confirmation lost to a dead channel,
and unread request ids occur nowhere. -/
structure PermInv (s : PermState) : Prop where
  nodup : s.pending.Nodup
  balance : ∀ rid ∈ s.reads,
      s.responses.count rid + (if rid ∈ s.pending then 1 else 0)
        + (if rid ∈ s.lostConfirms then 1 else 0) = 1
  unread : ∀ rid, rid ∉ s.reads →
      rid ∉ s.pending ∧ s.responses.count rid = 0 ∧ rid ∉ s.lostConfirms

end ClaudeCode

/-!
Theorems. Claim theorems are marked with their claim id; helper lemmas carry no
claim id and are shared.
-/

/-- C2, counterexample: with pairing state PendingCode for stored code ABCDEF
and not-yet-expired code, the input "abc-def" — whose uppercased,
dash/space-stripped form equals the stored code — does NOT complete the
pairing: the handler sends the invalid-code message and leaves the state at
PendingCode, because the PendingCode branch compares only the trimmed text
case-insensitively and never strips dashes or spaces. -/
theorem c2_pending_code_counterexample :
    Gateway.normalizeCode "abc-def" = "ABCDEF"
    ∧ Gateway.handleMessage "x" (fun _ => none) "s"
        (.pendingCode "ABCDEF" 1000) "abc-def" 0
      = (.sendText "Invalid code. Please try again.",
          .pendingCode "ABCDEF" 1000) := by
  exact ⟨by decide, by decide⟩

/-- C2 (amended): for a user in state PendingCode with now at most expires_at,
the handler completes the pairing exactly when the trimmed incoming text equals
the stored code ASCII-case-insensitively, with no dash or space stripping: so
"abcdef" matches stored code ABCDEF but "abc-def" and "ABC DEF" do not. Any
non-matching text leaves the state at PendingCode and sends the invalid-code
message. -/
theorem c2_pending_code_match (gt : String) (consume : String → Option String)
    (sid code text : String) (expiresAt now : Int) (h : now ≤ expiresAt) :
    ((Gateway.handleMessage gt consume sid (.pendingCode code expiresAt) text now).1
        = .completePairing
      ↔ Gateway.eqIgnoreAsciiCase (Gateway.rustTrim text) code = true)
    ∧ (Gateway.eqIgnoreAsciiCase (Gateway.rustTrim text) code = false →
        Gateway.handleMessage gt consume sid (.pendingCode code expiresAt) text now
          = (.sendText "Invalid code. Please try again.",
              .pendingCode code expiresAt))
    ∧ Gateway.eqIgnoreAsciiCase "abcdef" "ABCDEF" = true
    ∧ Gateway.eqIgnoreAsciiCase "abc-def" "ABCDEF" = false
    ∧ Gateway.eqIgnoreAsciiCase "ABC DEF" "ABCDEF" = false := by
  have hng : ¬ now > expiresAt := not_lt.mpr h
  refine ⟨?_, ?_, by decide, by decide, by decide⟩
  · simp only [Gateway.handleMessage, if_neg hng]
    cases hm : Gateway.eqIgnoreAsciiCase (Gateway.rustTrim text) code <;> simp [hm]
  · intro hm
    simp only [Gateway.handleMessage, if_neg hng, hm]
    simp

/-- C2 witness: the amended criterion applied at a concrete matching input. -/
theorem c2_pending_code_match_witness :
    (Gateway.handleMessage "x" (fun _ => none) "s"
        (.pendingCode "ABCDEF" 1000) "abcdef" 0).1 = .completePairing :=
  ((c2_pending_code_match "x" (fun _ => none) "s" "ABCDEF" "abcdef" 1000 0
      (by decide)).1).mpr (by decide)

/-- Consuming a code that matches no entry returns none and leaves the table
unchanged. -/
theorem consumePendingCode_no_match (now : Int) (code : String) :
    ∀ codes : List Gateway.StoredPendingCode, (∀ c ∈ codes, c.code ≠ code) →
      Gateway.consumePendingCode now code codes = (none, codes)
  | [], _ => rfl
  | c :: rest, h => by
    have hc : (c.code == code) = false := by
      simpa using h c (List.mem_cons_self c rest)
    simp [Gateway.consumePendingCode, hc,
      consumePendingCode_no_match now code rest
        (fun x hx => h x (List.mem_cons_of_mem c hx))]

/-- C5: consume_pending_code removes the (unique) entry for the code from the
pending-code table regardless of expiry and returns its gateway_type exactly
when now is at most expires_at; consequently a subsequent consume of the same
code returns none and leaves the table unchanged, and after consuming an
expired entry the entry no longer exists. -/
theorem c5_consume_pending_code (now : Int) (e : Gateway.StoredPendingCode) :
    ∀ codes : List Gateway.StoredPendingCode, e ∈ codes → codes.Nodup →
      (∀ c ∈ codes, c.code = e.code → c = e) →
      ((Gateway.consumePendingCode now e.code codes).1 = some e.gatewayType
          ↔ now ≤ e.expiresAt)
      ∧ (∀ c ∈ (Gateway.consumePendingCode now e.code codes).2, c.code ≠ e.code)
      ∧ Gateway.consumePendingCode now e.code
            (Gateway.consumePendingCode now e.code codes).2
          = (none, (Gateway.consumePendingCode now e.code codes).2)
  | [], hmem, _, _ => absurd hmem (List.not_mem_nil e)
  | c :: rest, hmem, hnodup, huniq => by
    rcases List.nodup_cons.mp hnodup with ⟨hcnotin, hnodupr⟩
    cases hc : c.code == e.code with
    | true =>
      have hce : c = e :=
        huniq c (List.mem_cons_self c rest) (by simpa using hc)
      have hnorest : ∀ x ∈ rest, x.code ≠ e.code := by
        intro x hx hxe
        have hxee : x = e := huniq x (List.mem_cons_of_mem c hx) hxe
        rw [hxee, ← hce] at hx
        exact hcnotin hx
      have hstep : Gateway.consumePendingCode now e.code (c :: rest)
          = (if now > c.expiresAt then none else some c.gatewayType, rest) := by
        simp [Gateway.consumePendingCode, hc]
      refine ⟨?_, ?_, ?_⟩
      · rw [hstep, hce]
        by_cases hexp : now > e.expiresAt
        · simp [hexp, not_le.mpr hexp]
        · simp [hexp, not_lt.mp hexp]
      · rw [hstep]
        exact hnorest
      · rw [hstep]
        exact consumePendingCode_no_match now e.code rest hnorest
    | false =>
      have hcne : c.code ≠ e.code := by simpa using hc
      have hmemr : e ∈ rest := by
        rcases List.mem_cons.mp hmem with h | h
        · exact absurd (by rw [h]) hcne
        · exact h
      have ih := c5_consume_pending_code now e rest hmemr hnodupr
        (fun x hx => huniq x (List.mem_cons_of_mem c hx))
      have hstep : Gateway.consumePendingCode now e.code (c :: rest)
          = ((Gateway.consumePendingCode now e.code rest).1,
              c :: (Gateway.consumePendingCode now e.code rest).2) := by
        simp [Gateway.consumePendingCode, hc]
      refine ⟨?_, ?_, ?_⟩
      · rw [hstep]
        exact ih.1
      · rw [hstep]
        intro x hx
        rcases List.mem_cons.mp hx with h | h
        · rw [h]; exact hcne
        · exact ih.2.1 x h
      · rw [hstep]
        have hall : ∀ x ∈ c :: (Gateway.consumePendingCode now e.code rest).2,
            x.code ≠ e.code := by
          intro x hx
          rcases List.mem_cons.mp hx with h | h
          · rw [h]; exact hcne
          · exact ih.2.1 x h
        exact consumePendingCode_no_match now e.code _ hall

/-- C5 witness: the contract applied to a one-entry table, once before expiry
and once after it. -/
theorem c5_consume_pending_code_witness :
    ((Gateway.consumePendingCode 0 "ABCDEF"
        [⟨"ABCDEF", "telegram", 100⟩]).1 = some "telegram" ↔ (0 : Int) ≤ 100)
    ∧ (∀ c ∈ (Gateway.consumePendingCode 200 "ABCDEF"
        [⟨"ABCDEF", "telegram", 100⟩]).2, c.code ≠ "ABCDEF") := by
  constructor
  · exact (c5_consume_pending_code 0 ⟨"ABCDEF", "telegram", 100⟩
      [⟨"ABCDEF", "telegram", 100⟩] (by decide) (by decide) (by decide)).1
  · exact (c5_consume_pending_code 200 ⟨"ABCDEF", "telegram", 100⟩
      [⟨"ABCDEF", "telegram", 100⟩] (by decide) (by decide) (by decide)).2.1

/-- On an error-free stream the relay loop runs to the end of the events and
performs the stream-end sends on the folded loop state. -/
theorem relayEvents_no_error :
    ∀ (events : List Gateway.AgentEvent) (acc : Gateway.RelayAcc),
      (∀ e ∈ events, e.isError = false) →
      Gateway.relayEvents acc events
        = (Gateway.relayFold acc events).out
            ++ Gateway.streamEndSends (Gateway.relayFold acc events)
  | [], _, _ => rfl
  | ev :: rest, acc, h => by
    have hrest : ∀ e ∈ rest, e.isError = false :=
      fun e he => h e (List.mem_cons_of_mem ev he)
    have ih := relayEvents_no_error rest (Gateway.relayEventStep acc ev) hrest
    cases ev with
    | message r content => exact ih
    | mcpNotification => exact ih
    | modelChange => exact ih
    | historyReplaced => exact ih
    | error e =>
      have hev := h _ (List.mem_cons_self _ rest)
      simp [Gateway.AgentEvent.isError] at hev

/-- relayStep only sets sent_any together with appending a Text message, and
never removes messages from the sent list. -/
theorem relayStep_sent_text (acc : Gateway.RelayAcc) (item : Gateway.MessageItem)
    (hinv : acc.sentAny = true → ∃ b, Gateway.OutgoingMessage.text b ∈ acc.out) :
    (Gateway.relayStep acc item).sentAny = true →
      ∃ b, Gateway.OutgoingMessage.text b ∈ (Gateway.relayStep acc item).out := by
  cases item with
  | text s =>
    by_cases hs : s ≠ "" <;> simp [Gateway.relayStep, hs] <;> exact fun h => hinv h
  | toolRequest callOk =>
    by_cases hp : acc.pending ≠ ""
    · intro _
      refine ⟨acc.pending, ?_⟩
      cases callOk <;> simp [Gateway.relayStep, hp]
    · intro hsent
      have hs : (Gateway.relayStep acc (.toolRequest callOk)).sentAny = acc.sentAny := by
        cases callOk <;> simp [Gateway.relayStep, hp]
      rw [hs] at hsent
      obtain ⟨b, hb⟩ := hinv hsent
      refine ⟨b, ?_⟩
      cases callOk <;> simp [Gateway.relayStep, hp] <;> simp [hb]
  | toolResponse => exact hinv
  | otherContent => exact hinv

/-- The fold of relayStep over a content list preserves the sent-text
invariant. -/
theorem relayContentFold_sent_text :
    ∀ (items : List Gateway.MessageItem) (acc : Gateway.RelayAcc),
      (acc.sentAny = true → ∃ b, Gateway.OutgoingMessage.text b ∈ acc.out) →
      ((items.foldl Gateway.relayStep acc).sentAny = true →
        ∃ b, Gateway.OutgoingMessage.text b ∈ (items.foldl Gateway.relayStep acc).out)
  | [], _, hinv => hinv
  | it :: rest, acc, hinv =>
    relayContentFold_sent_text rest _ (relayStep_sent_text acc it hinv)

/-- One stream event preserves the sent-text invariant. -/
theorem relayEventStep_sent_text (acc : Gateway.RelayAcc) (ev : Gateway.AgentEvent)
    (hinv : acc.sentAny = true → ∃ b, Gateway.OutgoingMessage.text b ∈ acc.out) :
    (Gateway.relayEventStep acc ev).sentAny = true →
      ∃ b, Gateway.OutgoingMessage.text b ∈ (Gateway.relayEventStep acc ev).out := by
  cases ev with
  | message r content =>
    by_cases hr : r = Gateway.Role.assistant
    · simp only [Gateway.relayEventStep, hr, if_pos]
      exact relayContentFold_sent_text content acc hinv
    · simpa [Gateway.relayEventStep, hr] using hinv
  | mcpNotification => exact hinv
  | modelChange => exact hinv
  | historyReplaced => exact hinv
  | error e => exact hinv

/-- The whole-stream fold preserves the sent-text invariant. -/
theorem relayFold_sent_text :
    ∀ (events : List Gateway.AgentEvent) (acc : Gateway.RelayAcc),
      (acc.sentAny = true → ∃ b, Gateway.OutgoingMessage.text b ∈ acc.out) →
      ((Gateway.relayFold acc events).sentAny = true →
        ∃ b, Gateway.OutgoingMessage.text b ∈ (Gateway.relayFold acc events).out)
  | [], _, hinv => hinv
  | ev :: rest, acc, hinv =>
    relayFold_sent_text rest _ (relayEventStep_sent_text acc ev hinv)

/-- C6: when the reply stream ends without an error event, the handler performs
the end-of-stream sends on the final loop state — the non-empty pending_text
buffer as one final Text, else the literal no-response marker when nothing was
sent — so every successful relay delivers at least one Text message (possibly
the literal "(No response)"). -/
theorem c6_relay_no_silent_end (events : List Gateway.AgentEvent)
    (h : ∀ e ∈ events, e.isError = false) :
    (Gateway.relayToSession events
      = Gateway.OutgoingMessage.typing ::
          ((Gateway.relayFold ⟨"", false, []⟩ events).out
            ++ Gateway.streamEndSends (Gateway.relayFold ⟨"", false, []⟩ events)))
    ∧ ∃ b, Gateway.OutgoingMessage.text b ∈ Gateway.relayToSession events := by
  have h1 := relayEvents_no_error events ⟨"", false, []⟩ h
  have h2 : Gateway.relayToSession events
      = Gateway.OutgoingMessage.typing ::
          ((Gateway.relayFold ⟨"", false, []⟩ events).out
            ++ Gateway.streamEndSends (Gateway.relayFold ⟨"", false, []⟩ events)) := by
    show Gateway.OutgoingMessage.typing :: Gateway.relayEvents ⟨"", false, []⟩ events = _
    rw [h1]
  refine ⟨h2, ?_⟩
  rw [h2]
  by_cases hp : (Gateway.relayFold ⟨"", false, []⟩ events).pending ≠ ""
  · refine ⟨(Gateway.relayFold ⟨"", false, []⟩ events).pending, ?_⟩
    apply List.mem_cons_of_mem
    apply List.mem_append_right
    simp [Gateway.streamEndSends, hp]
  · by_cases hs : (Gateway.relayFold ⟨"", false, []⟩ events).sentAny
    · obtain ⟨b, hb⟩ := relayFold_sent_text events ⟨"", false, []⟩
        (fun hx => absurd hx (by decide)) hs
      exact ⟨b, List.mem_cons_of_mem _ (List.mem_append_left _ hb)⟩
    · refine ⟨"(No response)", ?_⟩
      apply List.mem_cons_of_mem
      apply List.mem_append_right
      simp at hs
      simp [Gateway.streamEndSends, hp, hs]

/-- C6 witness: a concrete error-free one-delta stream delivers a Text. -/
theorem c6_relay_no_silent_end_witness :
    (∀ e ∈ ([Gateway.AgentEvent.message .assistant [.text "Hi"]] :
        List Gateway.AgentEvent), e.isError = false)
    ∧ ∃ b, Gateway.OutgoingMessage.text b ∈
        Gateway.relayToSession [Gateway.AgentEvent.message .assistant [.text "Hi"]] :=
  ⟨by decide,
    (c6_relay_no_silent_end [Gateway.AgentEvent.message .assistant [.text "Hi"]]
      (by decide)).2⟩

/-- C3 (code bug): on the call graph of a single function f that calls itself —
one node with a self-loop edge — outgoing traversal at depth 1 emits the chain
consisting of f twice, which repeats a node. The seed step of bfs_chains pairs
a start with each of its neighbors without excluding the start itself, so the
per-chain revisit prevention documented in the code never sees the self-loop. -/
theorem c3_bfs_self_loop :
    Analyze.bfsChains (fun _ : Nat => [0]) [0] 1 = [[0, 0]]
    ∧ ¬ ([0, 0] : List Nat).Nodup := by
  exact ⟨by decide, by decide⟩

/-- On a strictly sorted definition-line list, resolveCallerLine returns none
exactly when every definition is strictly after the call line, and otherwise
the greatest definition line at most the call line. -/
theorem resolveCallerLine_char (L : Nat) :
    ∀ lines : List Nat, List.Sorted (· < ·) lines →
      ((∀ x ∈ lines, L < x) ∧ Analyze.resolveCallerLine lines L = none)
      ∨ (∃ m, Analyze.resolveCallerLine lines L = some m ∧ m ∈ lines ∧ m ≤ L
          ∧ ∀ x ∈ lines, x ≤ L → x ≤ m)
  | [], _ => Or.inl ⟨by simp, by simp [Analyze.resolveCallerLine, Analyze.binarySearch]⟩
  | a :: xs, hsorted => by
    rcases List.sorted_cons.mp hsorted with ⟨ha, hxs⟩
    rcases lt_trichotomy L a with hLa | hEq | haL
    · left
      have hall : ∀ x ∈ a :: xs, L < x := by
        intro x hx
        rcases List.mem_cons.mp hx with rfl | hx'
        · exact hLa
        · exact hLa.trans (ha x hx')
      refine ⟨hall, ?_⟩
      have hnm : L ∉ a :: xs := fun hmem => lt_irrefl L (hall L hmem)
      have hcount : (a :: xs).countP (fun x => decide (x < L)) = 0 :=
        List.countP_eq_zero.mpr (by
          intro x hx
          simpa using not_lt.mpr (le_of_lt (hall x hx)))
      simp [Analyze.resolveCallerLine, Analyze.binarySearch, hnm, hcount]
    · right
      subst hEq
      refine ⟨L, ?_, List.mem_cons_self L xs, le_refl L, ?_⟩
      · have hmem : L ∈ L :: xs := List.mem_cons_self L xs
        have hidx : (L :: xs).indexOf L = 0 := List.indexOf_cons_self L xs
        simp [Analyze.resolveCallerLine, Analyze.binarySearch, hmem, hidx]
      · intro x hx hxL
        rcases List.mem_cons.mp hx with h | hx'
        · exact le_of_eq h
        · exact absurd hxL (not_le.mpr (ha x hx'))
    · rcases resolveCallerLine_char L xs hxs with ⟨hall, _⟩ | ⟨m, hres, hmem, hmL, hub⟩
      · right
        have hnmxs : L ∉ xs := fun h => lt_irrefl L (hall L h)
        have hna : L ≠ a := ne_of_gt haL
        have hnm : L ∉ a :: xs := by
          intro hmem
          rcases List.mem_cons.mp hmem with h | h
          · exact hna h
          · exact hnmxs h
        have hcxs : xs.countP (fun x => decide (x < L)) = 0 :=
          List.countP_eq_zero.mpr (by
            intro x hx
            simpa using not_lt.mpr (le_of_lt (hall x hx)))
        have hcount : (a :: xs).countP (fun x => decide (x < L)) = 1 := by
          rw [List.countP_cons, hcxs]
          simp [haL]
        refine ⟨a, ?_, List.mem_cons_self a xs, le_of_lt haL, ?_⟩
        · simp [Analyze.resolveCallerLine, Analyze.binarySearch, hnm, hcount]
        · intro x hx hxL
          rcases List.mem_cons.mp hx with h | hx'
          · exact le_of_eq h
          · exact absurd hxL (not_le.mpr (hall x hx'))
      · right
        refine ⟨m, ?_, List.mem_cons_of_mem a hmem, hmL, ?_⟩
        · have hLne : L ≠ a := ne_of_gt haL
          by_cases hLxs : L ∈ xs
          · have hLmem : L ∈ a :: xs := List.mem_cons_of_mem a hLxs
            have hidx : (a :: xs).indexOf L = (xs.indexOf L) + 1 := by
              simpa [Nat.succ_eq_add_one] using
                List.indexOf_cons_ne xs (Ne.symm hLne)
            have hres' : xs.get? (xs.indexOf L) = some m := by
              have heq : Analyze.resolveCallerLine xs L = xs.get? (xs.indexOf L) := by
                simp [Analyze.resolveCallerLine, Analyze.binarySearch, hLxs]
              rw [heq] at hres
              exact hres
            rw [List.get?_eq_getElem?] at hres'
            simp [Analyze.resolveCallerLine, Analyze.binarySearch, hLmem, hidx,
              List.get?_cons_succ, hres']
          · have hnm : L ∉ a :: xs := by
              intro hmem2
              rcases List.mem_cons.mp hmem2 with h | h
              · exact hLne h
              · exact hLxs h
            cases hcp : xs.countP (fun x => decide (x < L)) with
            | zero =>
              have heq : Analyze.resolveCallerLine xs L = none := by
                simp [Analyze.resolveCallerLine, Analyze.binarySearch, hLxs, hcp]
              rw [heq] at hres
              exact absurd hres (by simp)
            | succ j =>
              have heq : Analyze.resolveCallerLine xs L = xs.get? j := by
                simp [Analyze.resolveCallerLine, Analyze.binarySearch, hLxs, hcp]
              rw [heq] at hres
              have hcount : (a :: xs).countP (fun x => decide (x < L)) = j + 2 := by
                rw [List.countP_cons, hcp]
                simp [haL]
              rw [List.get?_eq_getElem?] at hres
              simp [Analyze.resolveCallerLine, Analyze.binarySearch, hnm, hcount,
                List.get?_cons_succ, hres]
        · intro x hx hxL
          rcases List.mem_cons.mp hx with rfl | hx'
          · exact le_of_lt (ha m hmem)
          · exact hub x hx' hxL

/-- C7: for a call at line L by caller f whose sorted definition lines in the
file are L1 < L2 < … < Lk, the recorded caller key is (path, f, m) for the
greatest definition line m at most L; when every definition lies strictly after
L, or f has no definition in the file, the caller is the per-file module
pseudo-node at line 0. -/
theorem c7_caller_resolution (path caller : String) (lines : List Nat) (L : Nat)
    (hs : List.Sorted (· < ·) lines) :
    ((∃ x ∈ lines, x ≤ L) →
      ∃ m, Analyze.buildCallerKey path caller (some lines) L = (path, caller, m)
        ∧ m ∈ lines ∧ m ≤ L ∧ ∀ x ∈ lines, x ≤ L → x ≤ m)
    ∧ ((∀ x ∈ lines, L < x) →
        Analyze.buildCallerKey path caller (some lines) L = (path, "<module>", 0))
    ∧ Analyze.buildCallerKey path caller none L = (path, "<module>", 0) := by
  rcases resolveCallerLine_char L lines hs with ⟨hall, hnone⟩ | ⟨m, hres, hmem, hmL, hub⟩
  · refine ⟨?_, ?_, rfl⟩
    · rintro ⟨x, hx, hxL⟩
      exact absurd hxL (not_le.mpr (hall x hx))
    · intro _
      simp [Analyze.buildCallerKey, Analyze.resolveCallerKey, hnone]
  · refine ⟨?_, ?_, rfl⟩
    · intro _
      exact ⟨m, by simp [Analyze.buildCallerKey, Analyze.resolveCallerKey, hres],
        hmem, hmL, hub⟩
    · intro hall
      exact absurd hmL (not_le.mpr (hall m hmem))

/-- C7 witness: concrete caller resolution, both the greatest-line case and the
module-node fallback. -/
theorem c7_caller_resolution_witness :
    (∃ m, Analyze.buildCallerKey "a.rs" "process" (some [1, 5, 9]) 7
        = ("a.rs", "process", m)
      ∧ m ∈ [1, 5, 9] ∧ m ≤ 7 ∧ ∀ x ∈ [1, 5, 9], x ≤ 7 → x ≤ m)
    ∧ Analyze.buildCallerKey "b.rs" "f" (some [10, 20]) 3 = ("b.rs", "<module>", 0) := by
  constructor
  · exact (c7_caller_resolution "a.rs" "process" [1, 5, 9] 7 (by decide)).1
      ⟨5, by decide, by decide⟩
  · exact ((c7_caller_resolution "b.rs" "f" [10, 20] 3 (by decide)).2).1 (by decide)

/-- C8: send_set_model with the current model is a no-op — Ok, no bytes
written, state unchanged; with a different model exactly one set_model control
request is written and, on an awaited success response, current_model becomes
that model (with the resolution logged on the next system line). -/
theorem c8_set_model_idempotent (st : ClaudeCode.CliState) (m : String)
    (input : List ClaudeCode.Line) :
    (m = st.currentModel →
      ClaudeCode.sendSetModel st m input = ([], .ok st input))
    ∧ (m ≠ st.currentModel →
        (ClaudeCode.sendSetModel st m input).1
          = [.controlRequest (ClaudeCode.requestIdString st.nextRequestId)
              (.setModel m)]
        ∧ ∀ st2 rest,
            (ClaudeCode.sendSetModel st m input).2
                = ClaudeCode.SetModelOut.ok st2 rest →
              st2.currentModel = m ∧ st2.logModelUpdate = true) := by
  constructor
  · intro h
    simp [ClaudeCode.sendSetModel, h]
  · intro h
    constructor
    · simp only [ClaudeCode.sendSetModel, if_neg h]
      cases hres : ClaudeCode.awaitControlResponse "set_model"
          (ClaudeCode.requestIdString st.nextRequestId) input with
      | ok v =>
        cases v with
        | mk resp rest =>
          simp [ClaudeCode.exchangeControl, ClaudeCode.CtrlReqOut.label, hres]
      | error e =>
        simp [ClaudeCode.exchangeControl, ClaudeCode.CtrlReqOut.label, hres]
    · intro st2 rest hok
      simp only [ClaudeCode.sendSetModel, if_neg h] at hok
      cases hres : ClaudeCode.awaitControlResponse "set_model"
          (ClaudeCode.requestIdString st.nextRequestId) input with
      | ok v =>
        cases v with
        | mk resp rest2 =>
          simp [ClaudeCode.exchangeControl, ClaudeCode.CtrlReqOut.label, hres] at hok
          rw [← hok.1]
          exact ⟨rfl, rfl⟩
      | error e =>
        simp [ClaudeCode.exchangeControl, ClaudeCode.CtrlReqOut.label, hres] at hok

/-- C8 witness: a same-model call writes nothing; a different-model call writes
the single set_model request. -/
theorem c8_set_model_idempotent_witness :
    ClaudeCode.sendSetModel ⟨"sonnet", false, 0, false⟩ "sonnet" []
      = ([], .ok ⟨"sonnet", false, 0, false⟩ [])
    ∧ (ClaudeCode.sendSetModel ⟨"sonnet", false, 0, false⟩ "default"
        [.controlResponse (some (.success (ClaudeCode.requestIdString 0) none))]).1
      = [.controlRequest (ClaudeCode.requestIdString 0) (.setModel "default")] := by
  constructor
  · exact (c8_set_model_idempotent ⟨"sonnet", false, 0, false⟩ "sonnet" []).1 rfl
  · exact ((c8_set_model_idempotent ⟨"sonnet", false, 0, false⟩ "default"
      [.controlResponse (some (.success (ClaudeCode.requestIdString 0) none))]).2
        (by decide)).1

/-- C10: fetch_supported_models returns Err exactly for a spawn failure; after
a successful spawn every outcome of the initialize exchange — including an
error response, EOF, or a response without a models array — yields Ok, with the
empty list in all failure shapes. -/
theorem c10_fetch_models_err_only_on_spawn
    (spawn : Except String (List ClaudeCode.Line)) :
    (∀ e, spawn = .error e →
      ClaudeCode.fetchSupportedModels spawn
        = .error (.requestFailed ("Failed to spawn CLI for model listing: " ++ e)))
    ∧ (∀ output, spawn = .ok output →
        ∃ ms, ClaudeCode.fetchSupportedModels spawn = .ok ms)
    ∧ (∀ output e, spawn = .ok output →
        (ClaudeCode.exchangeControl "model_list" .Initialize output).2 = .error e →
        ClaudeCode.fetchSupportedModels spawn = .ok [])
    ∧ (∀ output r rest, spawn = .ok output →
        (ClaudeCode.exchangeControl "model_list" .Initialize output).2 = .ok (r, rest) →
        r.bind (fun v => (v.get "models").bind ClaudeCode.Json.asArray) = none →
        ClaudeCode.fetchSupportedModels spawn = .ok []) := by
  refine ⟨?_, ?_, ?_, ?_⟩
  · intro e he
    subst he
    rfl
  · intro output ho
    subst ho
    exact ⟨_, rfl⟩
  · intro output e ho hex
    subst ho
    simp [ClaudeCode.fetchSupportedModels, hex, Except.toOption,
      ClaudeCode.extractModelAliases]
  · intro output r rest ho hex hmodels
    subst ho
    simp [ClaudeCode.fetchSupportedModels, hex, Except.toOption,
      ClaudeCode.extractModelAliases, hmodels]

/-- C10 witness: a concrete spawn failure is the only Err; a successfully
spawned child that immediately reaches EOF still yields Ok with no models. -/
theorem c10_fetch_models_err_only_on_spawn_witness :
    ClaudeCode.fetchSupportedModels (.error "enoent")
      = .error (.requestFailed "Failed to spawn CLI for model listing: enoent")
    ∧ ClaudeCode.fetchSupportedModels (.ok []) = .ok [] := by
  constructor
  · exact (c10_fetch_models_err_only_on_spawn (.error "enoent")).1 "enoent" rfl
  · exact (c10_fetch_models_err_only_on_spawn (.ok [])).2.2.1 []
      (.requestFailed "CLI process terminated while waiting for initialize response")
      rfl rfl

/-- A window without result or error lines is scanned to exhaustion. -/
theorem drainScan_none :
    ∀ window : List ClaudeCode.Line,
      (∀ l ∈ window, l.isDrainTerminator = false) →
      ClaudeCode.drainScan window = none
  | [], _ => rfl
  | l :: rest, h => by
    have hl : l.isDrainTerminator = false := h l (List.mem_cons_self l rest)
    simp [ClaudeCode.drainScan, hl,
      drainScan_none rest (fun x hx => h x (List.mem_cons_of_mem l hx))]

/-- C1, counterexample: with needs_drain set and a child that produces only a
non-terminator line before the 30-second drain timeout, the stream call does
NOT report a request-failed error and does NOT stop: it proceeds past the
drain (here with the model unchanged, so set_model is skipped) and writes the
user-turn line. Only the needs_drain retention part of the claim holds. -/
theorem c1_drain_timeout_counterexample :
    (ClaudeCode.streamPrologue ⟨"default", false, 0, true⟩ [] "s" "default"
        [.streamEvent (some .otherEvent)] .timeout []).error = none
    ∧ (ClaudeCode.streamPrologue ⟨"default", false, 0, true⟩ [] "s" "default"
        [.streamEvent (some .otherEvent)] .timeout []).userTurnWritten = true
    ∧ (ClaudeCode.streamPrologue ⟨"default", false, 0, true⟩ [] "s" "default"
        [.streamEvent (some .otherEvent)] .timeout []).writes
      = [.userTurn "s"]
    ∧ (ClaudeCode.drainPendingResponse ⟨"default", false, 0, true⟩
        [.streamEvent (some .otherEvent)] .timeout []).1.needsDrain = true := by
  exact ⟨rfl, rfl, rfl, rfl⟩

/-- C1 (amended): when the drain hits the 30-second timeout (no result or
error line was produced in time), needs_drain stays true and the drain
surfaces no error; the stream call then proceeds — whenever send_set_model
succeeds (in particular trivially when the model is unchanged), the user-turn
line is written, no request-failed error is reported, and needs_drain is set
for the next call to retry the drain. -/
theorem c1_drain_timeout_proceeds (st : ClaudeCode.CliState)
    (pending : List String) (sid model : String)
    (window rest : List ClaudeCode.Line)
    (hd : st.needsDrain = true)
    (hw : ∀ l ∈ window, l.isDrainTerminator = false) :
    ClaudeCode.drainPendingResponse st window .timeout rest = (st, rest)
    ∧ ∀ st2 input2,
        (ClaudeCode.sendSetModel st model rest).2
            = ClaudeCode.SetModelOut.ok st2 input2 →
          (ClaudeCode.streamPrologue st pending sid model window .timeout rest).error
            = none
          ∧ (ClaudeCode.streamPrologue st pending sid model window
              .timeout rest).userTurnWritten = true
          ∧ (ClaudeCode.streamPrologue st pending sid model window
              .timeout rest).state.needsDrain = true := by
  have hscan := drainScan_none window hw
  have hdrain : ClaudeCode.drainPendingResponse st window .timeout rest = (st, rest) := by
    simp [ClaudeCode.drainPendingResponse, hd, hscan]
  refine ⟨hdrain, ?_⟩
  intro st2 input2 hok
  cases hsm : ClaudeCode.sendSetModel st model rest with
  | mk w out =>
    cases out with
    | ok st3 rest3 =>
      refine ⟨?_, ?_, ?_⟩ <;> simp [ClaudeCode.streamPrologue, hdrain, hsm]
    | err st3 e =>
      rw [hsm] at hok
      simp at hok

/-- C1 witness: the amended behaviour at a concrete timed-out drain. -/
theorem c1_drain_timeout_proceeds_witness :
    (ClaudeCode.streamPrologue ⟨"default", false, 0, true⟩ [] "s" "default"
        [.streamEvent none] .timeout []).error = none
    ∧ (ClaudeCode.streamPrologue ⟨"default", false, 0, true⟩ [] "s" "default"
        [.streamEvent none] .timeout []).userTurnWritten = true
    ∧ (ClaudeCode.streamPrologue ⟨"default", false, 0, true⟩ [] "s" "default"
        [.streamEvent none] .timeout []).state.needsDrain = true :=
  (c1_drain_timeout_proceeds ⟨"default", false, 0, true⟩ [] "s" "default"
      [.streamEvent none] [] rfl (by decide)).2 ⟨"default", false, 0, true⟩ [] rfl

/-- Running the stream read loop to EOF over terminator-free lines clears
needs_drain, surfaces the termination request-failure, and never yields a
final usage entry. -/
theorem streamLoop_eof_spec (confirm : String → Option ClaudeCode.Permission)
    (modelName : String) :
    ∀ (lines : List ClaudeCode.Line) (st : ClaudeCode.CliState)
      (acc : ClaudeCode.UsageTokens),
      (∀ l ∈ lines, l.isDrainTerminator = false) →
      (ClaudeCode.streamLoop confirm modelName st acc lines .eof).state.needsDrain
          = false
      ∧ (ClaudeCode.streamLoop confirm modelName st acc lines .eof).error
          = some (.requestFailed "Claude CLI process terminated unexpectedly")
      ∧ ∀ m u, ClaudeCode.StreamYield.finalUsage m u
          ∉ (ClaudeCode.streamLoop confirm modelName st acc lines .eof).yields
  | [], st, acc, _ => by
    refine ⟨rfl, rfl, ?_⟩
    intro m u hmem
    simp [ClaudeCode.streamLoop] at hmem
  | l :: rest, st, acc, h => by
    have hrest : ∀ x ∈ rest, x.isDrainTerminator = false :=
      fun x hx => h x (List.mem_cons_of_mem l hx)
    have hl := h l (List.mem_cons_self l rest)
    cases l with
    | invalid => exact streamLoop_eof_spec confirm modelName rest st acc hrest
    | streamEvent ev =>
      cases ev with
      | none => exact streamLoop_eof_spec confirm modelName rest st acc hrest
      | some evb =>
        cases evb with
        | contentBlockDelta dt txt =>
          by_cases hdt : dt = some "text_delta"
          · cases txt with
            | none =>
              have ih := streamLoop_eof_spec confirm modelName rest st acc hrest
              simpa [ClaudeCode.streamLoop, hdt] using ih
            | some t =>
              have ih := streamLoop_eof_spec confirm modelName rest st acc hrest
              refine ⟨?_, ?_, ?_⟩
              · simpa [ClaudeCode.streamLoop, hdt,
                  ClaudeCode.LoopResult.withYield] using ih.1
              · simpa [ClaudeCode.streamLoop, hdt,
                  ClaudeCode.LoopResult.withYield] using ih.2.1
              · intro m u
                simpa [ClaudeCode.streamLoop, hdt,
                  ClaudeCode.LoopResult.withYield] using ih.2.2 m u
          · have ih := streamLoop_eof_spec confirm modelName rest st acc hrest
            simpa [ClaudeCode.streamLoop, hdt] using ih
        | messageStart u =>
          exact streamLoop_eof_spec confirm modelName rest st
            (ClaudeCode.foldStartUsage acc u) hrest
        | messageDelta u =>
          exact streamLoop_eof_spec confirm modelName rest st
            (ClaudeCode.foldDeltaUsage acc u) hrest
        | otherEvent => exact streamLoop_eof_spec confirm modelName rest st acc hrest
    | result u => simp [ClaudeCode.Line.isDrainTerminator] at hl
    | errorLine e2 => simp [ClaudeCode.Line.isDrainTerminator] at hl
    | controlResponse r => exact streamLoop_eof_spec confirm modelName rest st acc hrest
    | canUseTool rid tn inp tid =>
      have ih := streamLoop_eof_spec confirm modelName rest st acc hrest
      refine ⟨?_, ?_, ?_⟩
      · simpa [ClaudeCode.streamLoop, ClaudeCode.LoopResult.withYield,
          ClaudeCode.LoopResult.withWrites] using ih.1
      · simpa [ClaudeCode.streamLoop, ClaudeCode.LoopResult.withYield,
          ClaudeCode.LoopResult.withWrites] using ih.2.1
      · intro m u
        simpa [ClaudeCode.streamLoop, ClaudeCode.LoopResult.withYield,
          ClaudeCode.LoopResult.withWrites] using ih.2.2 m u
    | system mo =>
      cases hlog : st.logModelUpdate with
      | true =>
        simpa [ClaudeCode.streamLoop, hlog] using
          streamLoop_eof_spec confirm modelName rest
            { st with logModelUpdate := false } acc hrest
      | false =>
        simpa [ClaudeCode.streamLoop, hlog] using
          streamLoop_eof_spec confirm modelName rest st acc hrest
    | otherType => exact streamLoop_eof_spec confirm modelName rest st acc hrest

/-- C9: when the child's stdout reaches EOF mid-turn (no result or error line
was read), the stream loop sets needs_drain to false, ends with the
request-failed termination error, yields no final usage entry — and therefore
the next stream call on the same driver performs no drain even though no turn
terminator was ever consumed. -/
theorem c9_eof_mid_turn (confirm : String → Option ClaudeCode.Permission)
    (modelName : String) (st : ClaudeCode.CliState) (acc : ClaudeCode.UsageTokens)
    (lines : List ClaudeCode.Line)
    (h : ∀ l ∈ lines, l.isDrainTerminator = false) :
    (ClaudeCode.streamLoop confirm modelName st acc lines .eof).state.needsDrain
        = false
    ∧ (ClaudeCode.streamLoop confirm modelName st acc lines .eof).error
        = some (.requestFailed "Claude CLI process terminated unexpectedly")
    ∧ (∀ m u, ClaudeCode.StreamYield.finalUsage m u
        ∉ (ClaudeCode.streamLoop confirm modelName st acc lines .eof).yields)
    ∧ ∀ window windowEnd rest2,
        ClaudeCode.drainPendingResponse
            (ClaudeCode.streamLoop confirm modelName st acc lines .eof).state
            window windowEnd rest2
          = ((ClaudeCode.streamLoop confirm modelName st acc lines .eof).state,
              window ++ rest2) := by
  have spec := streamLoop_eof_spec confirm modelName lines st acc h
  refine ⟨spec.1, spec.2.1, spec.2.2, ?_⟩
  intro w we r
  simp [ClaudeCode.drainPendingResponse, spec.1]

/-- C9 witness: a concrete turn whose child emits one text delta and then hits
EOF. -/
theorem c9_eof_mid_turn_witness :
    (ClaudeCode.streamLoop (fun _ => none) "default" ⟨"default", false, 0, true⟩
        ⟨none, none⟩
        [.streamEvent (some (.contentBlockDelta (some "text_delta") (some "hi")))]
        .eof).state.needsDrain = false
    ∧ (ClaudeCode.streamLoop (fun _ => none) "default" ⟨"default", false, 0, true⟩
        ⟨none, none⟩
        [.streamEvent (some (.contentBlockDelta (some "text_delta") (some "hi")))]
        .eof).error
      = some (.requestFailed "Claude CLI process terminated unexpectedly") := by
  have happ := c9_eof_mid_turn (fun _ => none) "default" ⟨"default", false, 0, true⟩
    ⟨none, none⟩
    [.streamEvent (some (.contentBlockDelta (some "text_delta") (some "hi")))]
    (by decide)
  exact ⟨happ.1, happ.2.1⟩

/-- The reads log of one protocol step: only readCanUseTool extends it. -/
theorem permStep_reads (s : ClaudeCode.PermState) (e : ClaudeCode.PermEvent) :
    (ClaudeCode.permStep s e).reads
      = match e with
        | .readCanUseTool rid => rid :: s.reads
        | _ => s.reads := by
  cases e with
  | readCanUseTool rid => rfl
  | confirm rid =>
    by_cases hp : rid ∈ s.pending
    · by_cases ha : rid ∈ s.aliveWaiters
      · simp [ClaudeCode.permStep, hp, ha]
      · simp [ClaudeCode.permStep, hp, ha]
    · simp [ClaudeCode.permStep, hp]
  | dropStream => rfl
  | nextStreamCleanup => rfl

/-- One protocol step preserves the balance invariant, provided a freshly read
request id was never read before. -/
theorem permStep_inv (s : ClaudeCode.PermState) (e : ClaudeCode.PermEvent)
    (hinv : ClaudeCode.PermInv s)
    (hfresh : ∀ rid, e = .readCanUseTool rid → rid ∉ s.reads) :
    ClaudeCode.PermInv (ClaudeCode.permStep s e) := by
  obtain ⟨hnd, hbal, hout⟩ := hinv
  cases e with
  | readCanUseTool rid =>
    have hf : rid ∉ s.reads := hfresh rid rfl
    obtain ⟨hp0, hr0, hl0⟩ := hout rid hf
    have hstep : ClaudeCode.permStep s (.readCanUseTool rid)
        = { s with pending := rid :: s.pending,
                   aliveWaiters := rid :: s.aliveWaiters,
                   reads := rid :: s.reads } := rfl
    rw [hstep]
    refine ⟨List.nodup_cons.mpr ⟨hp0, hnd⟩, ?_, ?_⟩
    · intro r hr
      rcases List.mem_cons.mp hr with hre | hrs
      · subst hre
        simp [hr0, hl0]
      · have hne : r ≠ rid := fun he => hf (he ▸ hrs)
        have := hbal r hrs
        simpa [List.mem_cons, hne] using this
    · intro r hrn
      have hner : r ≠ rid := fun he => hrn (he ▸ List.mem_cons_self rid s.reads)
      have hnrs : r ∉ s.reads := fun hr2 => hrn (List.mem_cons_of_mem rid hr2)
      obtain ⟨a, b, c⟩ := hout r hnrs
      exact ⟨by simp [List.mem_cons, hner, a], b, c⟩
  | confirm rid =>
    by_cases hp : rid ∈ s.pending
    · have hrreads : rid ∈ s.reads := by
        by_contra hno
        exact (hout rid hno).1 hp
      have hcount := hbal rid hrreads
      rw [if_pos hp] at hcount
      have hc0 : s.responses.count rid = 0 := by
        by_cases hlost : rid ∈ s.lostConfirms
        · rw [if_pos hlost] at hcount
          omega
        · rw [if_neg hlost] at hcount
          omega
      have hl0 : rid ∉ s.lostConfirms := by
        intro hlost
        rw [if_pos hlost] at hcount
        omega
      by_cases halive : rid ∈ s.aliveWaiters
      · have hstep : ClaudeCode.permStep s (.confirm rid)
            = { s with pending := s.pending.erase rid,
                       aliveWaiters := s.aliveWaiters.erase rid,
                       responses := rid :: s.responses } := by
          simp [ClaudeCode.permStep, hp, halive]
        rw [hstep]
        refine ⟨hnd.erase rid, ?_, ?_⟩
        · intro r hr
          by_cases hre : r = rid
          · subst hre
            have hnm : r ∉ s.pending.erase r := fun hm =>
              ((List.Nodup.mem_erase_iff hnd).mp hm).1 rfl
            simp [List.count_cons_self, hc0, hnm, hl0]
          · have hmeq : (r ∈ s.pending.erase rid) = (r ∈ s.pending) := by
              simp [List.Nodup.mem_erase_iff hnd, hre]
            have := hbal r hr
            simpa [List.count_cons_of_ne hre, hmeq] using this
        · intro r hrn
          obtain ⟨a, b, c⟩ := hout r hrn
          have hre : r ≠ rid := fun he => hrn (he ▸ hrreads)
          refine ⟨fun hm => a (List.mem_of_mem_erase hm), ?_, c⟩
          simpa [List.count_cons_of_ne hre] using b
      · have hstep : ClaudeCode.permStep s (.confirm rid)
            = { s with pending := s.pending.erase rid,
                       lostConfirms := rid :: s.lostConfirms } := by
          simp [ClaudeCode.permStep, hp, halive]
        rw [hstep]
        refine ⟨hnd.erase rid, ?_, ?_⟩
        · intro r hr
          by_cases hre : r = rid
          · subst hre
            have hnm : r ∉ s.pending.erase r := fun hm =>
              ((List.Nodup.mem_erase_iff hnd).mp hm).1 rfl
            simp [hc0, hnm, hl0]
          · have hmeq : (r ∈ s.pending.erase rid) = (r ∈ s.pending) := by
              simp [List.Nodup.mem_erase_iff hnd, hre]
            have := hbal r hr
            simpa [List.mem_cons, hre, hmeq] using this
        · intro r hrn
          obtain ⟨a, b, c⟩ := hout r hrn
          have hre : r ≠ rid := fun he => hrn (he ▸ hrreads)
          refine ⟨fun hm => a (List.mem_of_mem_erase hm), b, ?_⟩
          simp [List.mem_cons, hre, c]
    · have hstep : ClaudeCode.permStep s (.confirm rid) = s := by
        simp [ClaudeCode.permStep, hp]
      rw [hstep]
      exact ⟨hnd, hbal, hout⟩
  | dropStream => exact ⟨hnd, hbal, hout⟩
  | nextStreamCleanup =>
    have hstep : ClaudeCode.permStep s .nextStreamCleanup
        = { s with responses := s.pending ++ s.responses, pending := [] } := rfl
    rw [hstep]
    refine ⟨List.nodup_nil, ?_, ?_⟩
    · intro r hr
      have := hbal r hr
      have hnil : (if r ∈ ([] : List String) then 1 else 0) = 0 := by simp
      show (s.pending ++ s.responses).count r
          + (if r ∈ ([] : List String) then 1 else 0)
          + (if r ∈ s.lostConfirms then 1 else 0) = 1
      rw [hnil, List.count_append]
      by_cases hp : r ∈ s.pending
      · have h1 : s.pending.count r = 1 := List.count_eq_one_of_mem hnd hp
        rw [if_pos hp] at this
        rw [h1]
        by_cases hlost : r ∈ s.lostConfirms
        · rw [if_pos hlost] at this
          rw [if_pos hlost]
          omega
        · rw [if_neg hlost] at this
          rw [if_neg hlost]
          omega
      · have h1 : s.pending.count r = 0 := List.count_eq_zero.mpr hp
        rw [if_neg hp] at this
        rw [h1]
        by_cases hlost : r ∈ s.lostConfirms
        · rw [if_pos hlost] at this
          rw [if_pos hlost]
          omega
        · rw [if_neg hlost] at this
          rw [if_neg hlost]
          omega
    · intro r hrn
      obtain ⟨a, b, c⟩ := hout r hrn
      refine ⟨List.not_mem_nil r, ?_, c⟩
      show (s.pending ++ s.responses).count r = 0
      rw [List.count_append, b, List.count_eq_zero.mpr a]

/-- The balance invariant holds after any trace whose read request ids are
pairwise distinct and fresh for the starting state. -/
theorem permTrace_inv :
    ∀ (events : List ClaudeCode.PermEvent) (s : ClaudeCode.PermState),
      ClaudeCode.PermInv s →
      (ClaudeCode.readRids events).Nodup →
      (∀ r ∈ ClaudeCode.readRids events, r ∉ s.reads) →
      ClaudeCode.PermInv (events.foldl ClaudeCode.permStep s)
  | [], _, hinv, _, _ => hinv
  | e :: rest, s, hinv, hnd, hfresh => by
    have hstep : ClaudeCode.PermInv (ClaudeCode.permStep s e) := by
      refine permStep_inv s e hinv ?_
      intro rid he
      subst he
      exact hfresh rid (by simp [ClaudeCode.readRids])
    cases e with
    | readCanUseTool rid =>
      have hnd2 : (rid :: ClaudeCode.readRids rest).Nodup := by
        simpa [ClaudeCode.readRids] using hnd
      refine permTrace_inv rest _ hstep (List.nodup_cons.mp hnd2).2 ?_
      intro r hr
      have h1 : r ≠ rid := fun he => (List.nodup_cons.mp hnd2).1 (he ▸ hr)
      have h2 : r ∉ s.reads :=
        hfresh r (by simp [ClaudeCode.readRids, hr])
      rw [permStep_reads]
      simp [List.mem_cons, h1, h2]
    | confirm rid =>
      refine permTrace_inv rest _ hstep
        (by simpa [ClaudeCode.readRids] using hnd) ?_
      intro r hr
      rw [permStep_reads]
      exact hfresh r (by simpa [ClaudeCode.readRids] using hr)
    | dropStream =>
      refine permTrace_inv rest _ hstep
        (by simpa [ClaudeCode.readRids] using hnd) ?_
      intro r hr
      rw [permStep_reads]
      exact hfresh r (by simpa [ClaudeCode.readRids] using hr)
    | nextStreamCleanup =>
      refine permTrace_inv rest _ hstep
        (by simpa [ClaudeCode.readRids] using hnd) ?_
      intro r hr
      rw [permStep_reads]
      exact hfresh r (by simpa [ClaudeCode.readRids] using hr)

/-- C4, counterexample: the child's can_use_tool request perm_1 is read, the
stream consumer is dropped, then the user's answer arrives through
handle_permission_confirmation, and the next stream call runs its pre-loop
cleanup. The confirmation removed the waiter entry while the reply channel was
already dead, so the cleanup finds nothing and no control_response for perm_1
is ever written — zero responses instead of the claimed exactly one. -/
theorem c4_permission_counterexample :
    "perm_1" ∈ (ClaudeCode.permTrace
        [.readCanUseTool "perm_1", .dropStream, .confirm "perm_1",
          .nextStreamCleanup]).reads
    ∧ (ClaudeCode.permTrace
        [.readCanUseTool "perm_1", .dropStream, .confirm "perm_1",
          .nextStreamCleanup]).responses.count "perm_1" = 0
    ∧ (ClaudeCode.permTrace
        [.readCanUseTool "perm_1", .dropStream, .confirm "perm_1",
          .nextStreamCleanup]).pending = [] := by
  exact ⟨by decide, by decide, by decide⟩

/-- C4 (amended): over any trace with distinct read request ids, every
can_use_tool request read from the child is answered by at most one
control_response, and by exactly one once its waiter entry is gone — unless the
confirmation arrived after the stream consumer was dropped (a lost confirm), in
which case no response is ever written for that request. -/
theorem c4_permission_balance (events : List ClaudeCode.PermEvent)
    (h : (ClaudeCode.readRids events).Nodup) :
    (∀ rid ∈ (ClaudeCode.permTrace events).reads,
      (ClaudeCode.permTrace events).responses.count rid
        + (if rid ∈ (ClaudeCode.permTrace events).pending then 1 else 0)
        + (if rid ∈ (ClaudeCode.permTrace events).lostConfirms then 1 else 0) = 1)
    ∧ (∀ rid ∈ (ClaudeCode.permTrace events).reads,
        rid ∉ (ClaudeCode.permTrace events).pending →
        rid ∉ (ClaudeCode.permTrace events).lostConfirms →
        (ClaudeCode.permTrace events).responses.count rid = 1)
    ∧ ∀ rid ∈ (ClaudeCode.permTrace events).reads,
        (ClaudeCode.permTrace events).responses.count rid ≤ 1 := by
  have hinv0 : ClaudeCode.PermInv ClaudeCode.permInit := by
    refine ⟨List.nodup_nil, ?_, ?_⟩
    · intro r hr
      simp [ClaudeCode.permInit] at hr
    · intro r _
      refine ⟨?_, ?_, ?_⟩ <;> simp [ClaudeCode.permInit]
  have hinvf := permTrace_inv events ClaudeCode.permInit hinv0 h
    (by intro r _; simp [ClaudeCode.permInit])
  have hinv : ClaudeCode.PermInv (ClaudeCode.permTrace events) := hinvf
  refine ⟨hinv.balance, ?_, ?_⟩
  · intro rid hr hp hl
    have := hinv.balance rid hr
    rw [if_neg hp, if_neg hl] at this
    omega
  · intro rid hr
    have := hinv.balance rid hr
    by_cases hp : rid ∈ (ClaudeCode.permTrace events).pending
      <;> by_cases hl : rid ∈ (ClaudeCode.permTrace events).lostConfirms
    · rw [if_pos hp, if_pos hl] at this
      omega
    · rw [if_pos hp, if_neg hl] at this
      omega
    · rw [if_neg hp, if_pos hl] at this
      omega
    · rw [if_neg hp, if_neg hl] at this
      omega

/-- C4 witness: a read-then-confirmed request on a live stream gets exactly one
response. -/
theorem c4_permission_balance_witness :
    "perm_1" ∈ (ClaudeCode.permTrace
        [.readCanUseTool "perm_1", .confirm "perm_1"]).reads
    ∧ (ClaudeCode.permTrace
        [.readCanUseTool "perm_1", .confirm "perm_1"]).responses.count "perm_1"
      = 1 := by
  refine ⟨by decide, ?_⟩
  exact (c4_permission_balance [.readCanUseTool "perm_1", .confirm "perm_1"]
    (by decide)).2.1 "perm_1" (by decide) (by decide) (by decide)
